import Mathlib

/-!
Shallow embedding of the geometry helpers of `src/app.py`:
`_point_in_ring`, `geojson_contains_point` and `_arcgis_polygon_to_geojson`.

Python floats are modelled as exact rationals (`ℚ`); float literals such as
`1e-18` denote the corresponding decimal rationals via `OfScientific`.
A Python exception (notably the `ZeroDivisionError` that `/` raises on a
zero divisor) is modelled by `Option`: `none` means the call raises,
`some b` means it returns the boolean `b`.  Python's `and`/generator
short-circuiting is reflected in the order in which the `Option`
computations are sequenced, exactly following the source's control flow.
-/

namespace App

/-- A coordinate pair `(lon, lat)`, i.e. one `[x, y]` entry of a ring. -/
abbrev Pt : Type := ℚ × ℚ

/-- A linear ring: the `ring: List[List[float]]` argument of `_point_in_ring`. -/
abbrev LinearRing : Type := List Pt

/-- The straddle part of the crossing test of `_point_in_ring`
(line 81 of `src/app.py`): `(y1 > lat) != (y2 > lat)`. -/
def straddles (lat y1 y2 : ℚ) : Bool :=
  decide (y1 > lat) != decide (y2 > lat)

/-- One evaluation of the crossing condition of line 81 of `src/app.py` on
the edge `e = ((x1, y1), (x2, y2))`:
`((y1 > lat) != (y2 > lat)) and (lon < (x2 - x1) * (lat - y1) / (y2 - y1 + 1e-18) + x1)`.
Python's `and` short-circuits, so the division is evaluated only when the
straddle test holds; a zero divisor then raises `ZeroDivisionError`,
modelled as `none`. -/
def crossTest (lon lat : ℚ) (e : Pt × Pt) : Option Bool :=
  if straddles lat e.1.2 e.2.2 then
    if e.2.2 - e.1.2 + 1e-18 = 0 then none
    else some (decide (lon < (e.2.1 - e.1.1) * (lat - e.1.2) / (e.2.2 - e.1.2 + 1e-18) + e.1.1))
  else some false

/-- The edge-inclusive check of lines 84-86 of `src/app.py` on the edge
`e = ((x1, y1), (x2, y2))`: the query point lies in the edge's bounding box
expanded by `1e-12` and the cross-product collinearity value is at most
`1e-12` in absolute value. -/
def onEdgeCheck (lon lat : ℚ) (e : Pt × Pt) : Bool :=
  decide (min e.1.1 e.2.1 - 1e-12 ≤ lon) && decide (lon ≤ max e.1.1 e.2.1 + 1e-12) &&
  decide (min e.1.2 e.2.2 - 1e-12 ≤ lat) && decide (lat ≤ max e.1.2 e.2.2 + 1e-12) &&
  decide (|(e.2.2 - e.1.2) * (lon - e.1.1) - (e.2.1 - e.1.1) * (lat - e.1.2)| ≤ 1e-12)

/-- The body of the `for i in range(n)` loop of `_point_in_ring`, over the
explicit list of edges `(ring[i], ring[(i+1) % n])`, carrying the `inside`
accumulator.  Each iteration first evaluates the crossing toggle (which may
raise) and then the edge-inclusive check (which returns `True` early). -/
def ringLoop (lon lat : ℚ) : List (Pt × Pt) → Bool → Option Bool
  | [], inside => some inside
  | e :: es, inside =>
    match crossTest lon lat e with
    | none => none
    | some c =>
      if onEdgeCheck lon lat e then some true
      else ringLoop lon lat es (if c then !inside else inside)

/-- Consecutive pairs of a vertex list: `pathEdges [a, b, c] = [(a,b), (b,c)]`. -/
def pathEdges : List Pt → List (Pt × Pt)
  | [] => []
  | [_] => []
  | a :: b :: l => (a, b) :: pathEdges (b :: l)

/-- The edges `(ring[i], ring[(i+1) % n])` for `i in range(n)`, in loop
order: the wrap-around edge from the last vertex back to the first is
included, so the ring is treated as cyclic (`ringEdges_get` below proves
this agrees with the source's index arithmetic). -/
def ringEdges : LinearRing → List (Pt × Pt)
  | [] => []
  | p :: ps => pathEdges (p :: (ps ++ [p]))

/-- `_point_in_ring` (lines 71-88 of `src/app.py`).  `some b`: the call
returns the boolean `b`; `none`: the call raises. -/
def point_in_ring (lon lat : ℚ) (ring : LinearRing) : Option Bool :=
  if ring.length < 3 then some false
  else ringLoop lon lat (ringEdges ring) false

/-- The `coordinates` value of a GeoJSON geometry dict: either
polygon-shaped (a list of rings) or multipolygon-shaped (a list of lists
of rings). -/
inductive Coords where
  | pc (rings : List LinearRing)
  | mc (polys : List (List LinearRing))

/-- A GeoJSON geometry dict as consumed by `geojson_contains_point`:
an optional `"type"` key and an optional `"coordinates"` key
(`none` models the key being absent or `null`). -/
structure Geometry where
  type? : Option String
  coords? : Option Coords

/-- The hole loop of the `Polygon` branch (lines 100-102 of `src/app.py`):
`for hole in rings[1:]: if _point_in_ring(lon, lat, hole): return False`,
then `return True`. -/
def holesLoop (lon lat : ℚ) : List LinearRing → Option Bool
  | [] => some true
  | h :: hs =>
    match point_in_ring lon lat h with
    | none => none
    | some true => some false
    | some false => holesLoop lon lat hs

/-- The `Polygon` branch of `geojson_contains_point` (lines 94-103),
applied to the already extracted `rings` list. -/
def polyBranch (lon lat : ℚ) : List LinearRing → Option Bool
  | [] => some false
  | outer :: holes =>
    match point_in_ring lon lat outer with
    | none => none
    | some false => some false
    | some true => holesLoop lon lat holes

/-- The generator `any(_point_in_ring(lon, lat, h) for h in poly[1:])` of
line 106 of `src/app.py` (short-circuiting, exceptions propagate). -/
def anyHole (lon lat : ℚ) : List LinearRing → Option Bool
  | [] => some false
  | h :: hs =>
    match point_in_ring lon lat h with
    | none => none
    | some true => some true
    | some false => anyHole lon lat hs

/-- The `MultiPolygon` branch of `geojson_contains_point` (lines 104-108):
`for poly in ...: if poly and _point_in_ring(lon, lat, poly[0]) and
not any(...): return True`, then `return False`. -/
def multiLoop (lon lat : ℚ) : List (List LinearRing) → Option Bool
  | [] => some false
  | poly :: rest =>
    match poly with
    | [] => multiLoop lon lat rest
    | outer :: holes =>
      match point_in_ring lon lat outer with
      | none => none
      | some false => multiLoop lon lat rest
      | some true =>
        match anyHole lon lat holes with
        | none => none
        | some true => multiLoop lon lat rest
        | some false => some true

/-- `geom.get("coordinates") or []` in the `Polygon` branch (line 95):
a missing/`null` key and an empty list are both falsy and give `[]`.
A non-empty multipolygon-shaped value under a `Polygon` tag is a dynamic
shape mismatch outside this typed model: depending on the member lists'
lengths the source then returns `False` (first member shorter than 3) or
misreads rings as vertex pairs; the branch is modelled as `none` and is
exercised by no claim. -/
def polyCoordsOf : Option Coords → Option (List LinearRing)
  | none => some []
  | some (.pc rs) => some rs
  | some (.mc []) => some []
  | some (.mc (_ :: _)) => none

/-- `geom.get("coordinates") or []` in the `MultiPolygon` branch
(line 105).  A non-empty polygon-shaped value under a `MultiPolygon` tag
is a dynamic shape mismatch outside this typed model (the source then
treats each ring as a member polygon and each vertex pair as a ring of
length 2, returning `False`); the branch is modelled as `none` and is
exercised by no claim. -/
def multiCoordsOf : Option Coords → Option (List (List LinearRing))
  | none => some []
  | some (.mc ps) => some ps
  | some (.pc []) => some []
  | some (.pc (_ :: _)) => none

/-- `geojson_contains_point` (lines 90-109 of `src/app.py`).  The outer
`Option` argument models a falsy `geom` (`None`); a `Geometry` with
`type? = none` models a dict without a `"type"` key. -/
def geojson_contains_point (geom : Option Geometry) (lon lat : ℚ) : Option Bool :=
  match geom with
  | none => some false
  | some g =>
    match g.type? with
    | none => some false
    | some t =>
      if t = "Polygon" then
        match polyCoordsOf g.coords? with
        | none => none
        | some rings => polyBranch lon lat rings
      else if t = "MultiPolygon" then
        match multiCoordsOf g.coords? with
        | none => none
        | some ps => multiLoop lon lat ps
      else some false

/-- An ArcGIS geometry dict as consumed by `_arcgis_polygon_to_geojson`:
an optional `"rings"` key. -/
structure ArcGeom where
  rings? : Option (List LinearRing)

/-- `_arcgis_polygon_to_geojson` (lines 178-187 of `src/app.py`). -/
def arcgis_polygon_to_geojson (geom : Option ArcGeom) : Option Geometry :=
  match geom with
  | none => none
  | some a =>
    match a.rings? with
    | none => none
    | some [] => none
    | some [r] => some ⟨some "Polygon", some (.pc [r])⟩
    | some rs => some ⟨some "MultiPolygon", some (.mc (rs.map (fun r => [r])))⟩

/-- A well-shaped `Polygon` geometry dict, as built on line 185 of
`src/app.py` and as consumed by the `Polygon` branch. -/
def polyGeom (rings : List LinearRing) : Geometry :=
  ⟨some "Polygon", some (.pc rings)⟩

/-- A well-shaped `MultiPolygon` geometry dict, as built on line 187 of
`src/app.py` and as consumed by the `MultiPolygon` branch. -/
def multiGeom (ps : List (List LinearRing)) : Geometry :=
  ⟨some "MultiPolygon", some (.mc ps)⟩

/-- The crossing test of line 81 as a total boolean over one edge, using
`ℚ`'s total division.  It agrees with `crossTest` whenever the guarded
denominator is nonzero (`crossTest_eq_crossesB`). -/
def crossesB (lon lat : ℚ) (e : Pt × Pt) : Bool :=
  straddles lat e.1.2 e.2.2 &&
  decide (lon < (e.2.1 - e.1.1) * (lat - e.1.2) / (e.2.2 - e.1.2 + 1e-18) + e.1.1)

/-- The guarded denominator of the crossing test is nonzero whenever the
edge straddles the query latitude, so the division in the crossing test
cannot raise on this edge. -/
abbrev denomOK (lat : ℚ) (e : Pt × Pt) : Prop :=
  straddles lat e.1.2 e.2.2 = true → e.2.2 - e.1.2 + 1e-18 ≠ 0

/-- The number of edges of the ring satisfying the crossing test. -/
def crossCount (lon lat : ℚ) (ring : LinearRing) : Nat :=
  (ringEdges ring).countP (crossesB lon lat)

/-- The square outer ring `[[0,0],[0,10],[10,10],[10,0]]` of §8 of the spec. -/
def sqRing : LinearRing := [(0, 0), (0, 10), (10, 10), (10, 0)]

/-- The hole ring `[[4,4],[4,6],[6,6],[6,4]]` of §8 of the spec. -/
def holeSq : LinearRing := [(4, 4), (4, 6), (6, 6), (6, 4)]

/-- A ring whose first edge descends by exactly `1e-18` in latitude: for any
query latitude strictly between `0` and `1e-18` the guarded denominator
`y2 - y1 + 1e-18` of the crossing test is exactly zero. -/
def zRing : LinearRing := [(0, 1e-18), (2, 0), (1, 1)]

/-- A quadrilateral whose first edge `(0,1e-18)-(2,0)` descends by exactly
`1e-18` in latitude, so its guarded crossing denominator is exactly zero at
any query latitude strictly between `0` and `1e-18` (all coordinates are
exactly representable IEEE doubles, and `0 - 1e-18 + 1e-18` is exactly
zero in double arithmetic as well).  The vertical edge at `x = 40` is the
unique edge crossed by the ray from the query point `(30, 5e-19)`, and the
point is far (collinearity values of order `30` to `280`, or a bounding
box miss) from every edge. -/
def fRing : LinearRing := [(0, 1e-18), (2, 0), (40, -10), (40, 1)]

/-! ### Supporting lemmas: `ringEdges` agrees with the source's indexing -/

theorem pathEdges_length : ∀ xs : List Pt, (pathEdges xs).length = xs.length - 1
  | [] => rfl
  | [_] => rfl
  | a :: b :: l => by
    simp only [pathEdges, List.length_cons, pathEdges_length (b :: l)]
    omega

theorem pathEdges_get : ∀ (xs : List Pt) (i : Nat) (h : i + 1 < xs.length)
    (hp : i < (pathEdges xs).length),
    (pathEdges xs).get ⟨i, hp⟩ = (xs.get ⟨i, by omega⟩, xs.get ⟨i + 1, h⟩)
  | [], i, h, _ => by simp at h
  | [_], i, h, _ => by simp at h
  | a :: b :: l, 0, h, _ => rfl
  | a :: b :: l, i + 1, h, hp => by
    have ih := pathEdges_get (b :: l) i
      (by simp only [List.length_cons] at h ⊢; omega)
      (by simp only [pathEdges, List.length_cons] at hp ⊢; omega)
    exact ih

theorem ringEdges_length : ∀ ring : LinearRing, (ringEdges ring).length = ring.length
  | [] => rfl
  | p :: ps => by
    simp only [ringEdges, pathEdges_length, List.length_cons, List.length_append]
    simp

/-- The `i`-th entry of `ringEdges ring` is exactly the pair
`(ring[i], ring[(i + 1) % n])` read by the loop of `_point_in_ring`. -/
theorem ringEdges_get (ring : LinearRing) (i : Nat) (h : i < ring.length)
    (hi : i < (ringEdges ring).length)
    (hm : (i + 1) % ring.length < ring.length) :
    (ringEdges ring).get ⟨i, hi⟩ =
      (ring.get ⟨i, h⟩, ring.get ⟨(i + 1) % ring.length, hm⟩) := by
  cases ring with
  | nil => simp at h
  | cons p ps =>
    have hlen : i < (p :: ps).length := h
    have h2 : i + 1 < (p :: (ps ++ [p])).length := by
      simp only [List.length_cons, List.length_append, List.length_cons] at h ⊢
      simp only [List.length_cons] at hlen
      omega
    refine (pathEdges_get (p :: (ps ++ [p])) i h2 hi).trans ?_
    have e1 : (p :: (ps ++ [p])).get ⟨i, by omega⟩ = (p :: ps).get ⟨i, h⟩ := by
      rw [List.get_eq_getElem, List.get_eq_getElem]
      exact List.getElem_append_left h
    rw [e1]
    have hsplit : i + 1 < (p :: ps).length ∨ i + 1 = (p :: ps).length := by
      simp only [List.length_cons] at h ⊢
      omega
    rcases hsplit with hlt | heq
    · have efin : (⟨(i + 1) % (p :: ps).length, hm⟩ : Fin (p :: ps).length)
          = ⟨i + 1, hlt⟩ :=
        Fin.ext (by show (i + 1) % (p :: ps).length = i + 1; exact Nat.mod_eq_of_lt hlt)
      rw [efin]
      have e2 : (p :: (ps ++ [p])).get ⟨i + 1, h2⟩ = (p :: ps).get ⟨i + 1, hlt⟩ := by
        rw [List.get_eq_getElem, List.get_eq_getElem]
        exact List.getElem_append_left hlt
      rw [e2]
    · have efin : (⟨(i + 1) % (p :: ps).length, hm⟩ : Fin (p :: ps).length)
          = ⟨0, by simp⟩ :=
        Fin.ext (by show (i + 1) % (p :: ps).length = 0; rw [heq]; exact Nat.mod_self _)
      rw [efin]
      have efin2 : (⟨i + 1, h2⟩ : Fin (p :: (ps ++ [p])).length)
          = ⟨(p :: ps).length, by simp⟩ := Fin.ext heq
      rw [efin2]
      have e2 : (p :: (ps ++ [p])).get ⟨(p :: ps).length, by simp⟩ = p := by
        rw [List.get_eq_getElem]
        exact List.getElem_concat_length (p :: ps) p _ rfl _
      rw [e2]
      rfl

/-! ### Supporting lemmas: the ring loop -/

theorem crossTest_eq_crossesB (lon lat : ℚ) (e : Pt × Pt) (h : denomOK lat e) :
    crossTest lon lat e = some (crossesB lon lat e) := by
  unfold crossTest crossesB
  by_cases hs : straddles lat e.1.2 e.2.2 = true
  · rw [if_pos hs, if_neg (h hs), hs, Bool.true_and]
  · rw [if_neg hs]
    simp only [Bool.not_eq_true] at hs
    rw [hs, Bool.false_and]

theorem ringLoop_of_no_onEdge (lon lat : ℚ) :
    ∀ (E : List (Pt × Pt)) (b : Bool),
      (∀ e ∈ E, onEdgeCheck lon lat e = false) →
      (∀ e ∈ E, denomOK lat e) →
      ringLoop lon lat E b = some (b ^^ decide (Odd (E.countP (crossesB lon lat))))
  | [], b, _, _ => by simp [ringLoop]
  | e :: es, b, hE, hD => by
    have hce := crossTest_eq_crossesB lon lat e (hD e (List.mem_cons_self e es))
    have hoe : onEdgeCheck lon lat e = false := hE e (List.mem_cons_self e es)
    have ih := ringLoop_of_no_onEdge lon lat es (if crossesB lon lat e then !b else b)
      (fun f hf => hE f (List.mem_cons_of_mem e hf))
      (fun f hf => hD f (List.mem_cons_of_mem e hf))
    simp only [ringLoop]
    rw [hce]
    dsimp only
    rw [if_neg (by simp [hoe]), ih, List.countP_cons]
    by_cases hc : crossesB lon lat e = true
    · rw [if_pos hc, if_pos hc]
      have hodd : decide (Odd (es.countP (crossesB lon lat) + 1))
          = !decide (Odd (es.countP (crossesB lon lat))) := by
        rw [decide_eq_decide.mpr Nat.odd_add_one, decide_not]
      rw [hodd]
      cases b <;> cases hdn : decide (Odd (es.countP (crossesB lon lat))) <;> rfl
    · rw [if_neg hc, if_neg hc, Nat.add_zero]

theorem ringLoop_of_onEdge (lon lat : ℚ) :
    ∀ (E : List (Pt × Pt)) (b : Bool),
      (∀ e ∈ E, denomOK lat e) →
      (∃ e ∈ E, onEdgeCheck lon lat e = true) →
      ringLoop lon lat E b = some true
  | [], _, _, hex => by simp at hex
  | e :: es, b, hD, hex => by
    have hce := crossTest_eq_crossesB lon lat e (hD e (List.mem_cons_self e es))
    simp only [ringLoop]
    rw [hce]
    dsimp only
    by_cases hoe : onEdgeCheck lon lat e = true
    · rw [if_pos hoe]
    · rw [if_neg hoe]
      have hex2 : ∃ f ∈ es, onEdgeCheck lon lat f = true := by
        rcases hex with ⟨f, hf, hft⟩
        rcases List.mem_cons.mp hf with rfl | hf2
        · exact absurd hft hoe
        · exact ⟨f, hf2, hft⟩
      exact ringLoop_of_onEdge lon lat es _
        (fun f hf => hD f (List.mem_cons_of_mem e hf)) hex2

/-! ### Supporting lemmas: holes and geometry branches -/

theorem holesLoop_eq_anyHole (lon lat : ℚ) :
    ∀ hs : List LinearRing,
      holesLoop lon lat hs = (anyHole lon lat hs).map (fun b => !b)
  | [] => rfl
  | h :: hs => by
    simp only [holesLoop, anyHole]
    cases point_in_ring lon lat h with
    | none => rfl
    | some b =>
      cases b with
      | true => rfl
      | false => exact holesLoop_eq_anyHole lon lat hs

theorem holesLoop_eq_true_iff (lon lat : ℚ) :
    ∀ hs : List LinearRing,
      (holesLoop lon lat hs = some true ↔
        ∀ h ∈ hs, point_in_ring lon lat h = some false)
  | [] => by simp [holesLoop]
  | h :: hs => by
    simp only [holesLoop]
    cases hph : point_in_ring lon lat h with
    | none => simp [hph]
    | some b =>
      cases b with
      | true => simp [hph]
      | false => simp [hph, holesLoop_eq_true_iff lon lat hs]

theorem polyBranch_eq_true_iff (lon lat : ℚ) (outer : LinearRing)
    (holes : List LinearRing) :
    polyBranch lon lat (outer :: holes) = some true ↔
      (point_in_ring lon lat outer = some true ∧
       ∀ h ∈ holes, point_in_ring lon lat h = some false) := by
  simp only [polyBranch]
  cases hpo : point_in_ring lon lat outer with
  | none => simp [hpo]
  | some b =>
    cases b with
    | false => simp
    | true => simp [holesLoop_eq_true_iff]

theorem multiLoop_eq_true_iff (lon lat : ℚ) :
    ∀ ps : List (List LinearRing),
      (∀ p ∈ ps, polyBranch lon lat p ≠ none) →
      (multiLoop lon lat ps = some true ↔
        ∃ p ∈ ps, polyBranch lon lat p = some true)
  | [], _ => by simp [multiLoop]
  | p :: rest, hOK => by
    have ihr := multiLoop_eq_true_iff lon lat rest
      (fun q hq => hOK q (List.mem_cons_of_mem p hq))
    have hOKp := hOK p (List.mem_cons_self p rest)
    simp only [multiLoop]
    cases p with
    | nil => simp [polyBranch, ihr]
    | cons outer hs =>
      cases hpo : point_in_ring lon lat outer with
      | none => exact absurd (by simp [polyBranch, hpo]) hOKp
      | some b =>
        cases b with
        | false =>
          have hpb : polyBranch lon lat (outer :: hs) = some false := by
            simp [polyBranch, hpo]
          simp [hpo, hpb, ihr]
        | true =>
          cases hah : anyHole lon lat hs with
          | none =>
            have hpb : polyBranch lon lat (outer :: hs) = none := by
              simp [polyBranch, hpo, holesLoop_eq_anyHole, hah]
            exact absurd hpb hOKp
          | some hb =>
            cases hb with
            | true =>
              have hpb : polyBranch lon lat (outer :: hs) = some false := by
                simp [polyBranch, hpo, holesLoop_eq_anyHole, hah]
              simp [hpo, hah, hpb, ihr]
            | false =>
              have hpb : polyBranch lon lat (outer :: hs) = some true := by
                simp [polyBranch, hpo, holesLoop_eq_anyHole, hah]
              simp [hpo, hah, hpb]

theorem geojson_poly (rs : List LinearRing) (lon lat : ℚ) :
    geojson_contains_point (some (polyGeom rs)) lon lat = polyBranch lon lat rs := rfl

theorem geojson_multi (ps : List (List LinearRing)) (lon lat : ℚ) :
    geojson_contains_point (some (multiGeom ps)) lon lat = multiLoop lon lat ps := rfl

/-! ### Concrete evaluations (shared by several claims) -/

theorem pir_sq_55 : point_in_ring 5 5 sqRing = some true := by
  norm_num [point_in_ring, sqRing, ringEdges, pathEdges, ringLoop, crossTest,
    onEdgeCheck, straddles, min_def, max_def, abs_le]

theorem pir_sq_1515 : point_in_ring 15 15 sqRing = some false := by
  norm_num [point_in_ring, sqRing, ringEdges, pathEdges, ringLoop, crossTest,
    onEdgeCheck, straddles, min_def, max_def, abs_le]

theorem pir_sq_05 : point_in_ring 0 5 sqRing = some true := by
  norm_num [point_in_ring, sqRing, ringEdges, pathEdges, ringLoop, crossTest,
    onEdgeCheck, straddles, min_def, max_def, abs_le]

theorem pir_sq_1010 : point_in_ring 10 10 sqRing = some true := by
  norm_num [point_in_ring, sqRing, ringEdges, pathEdges, ringLoop, crossTest,
    onEdgeCheck, straddles, min_def, max_def, abs_le]

theorem pir_sq_11 : point_in_ring 1 1 sqRing = some true := by
  norm_num [point_in_ring, sqRing, ringEdges, pathEdges, ringLoop, crossTest,
    onEdgeCheck, straddles, min_def, max_def, abs_le]

theorem pir_holeSq_55 : point_in_ring 5 5 holeSq = some true := by
  norm_num [point_in_ring, holeSq, ringEdges, pathEdges, ringLoop, crossTest,
    onEdgeCheck, straddles, min_def, max_def, abs_le]

theorem pir_holeSq_11 : point_in_ring 1 1 holeSq = some false := by
  norm_num [point_in_ring, holeSq, ringEdges, pathEdges, ringLoop, crossTest,
    onEdgeCheck, straddles, min_def, max_def, abs_le]

theorem pir_holeSq_45 : point_in_ring 4 5 holeSq = some true := by
  norm_num [point_in_ring, holeSq, ringEdges, pathEdges, ringLoop, crossTest,
    onEdgeCheck, straddles, min_def, max_def, abs_le]

theorem pir_sq_45 : point_in_ring 4 5 sqRing = some true := by
  norm_num [point_in_ring, sqRing, ringEdges, pathEdges, ringLoop, crossTest,
    onEdgeCheck, straddles, min_def, max_def, abs_le]

theorem pir_sq_lowlat : point_in_ring 5 5e-19 sqRing = some true := by
  norm_num [point_in_ring, sqRing, ringEdges, pathEdges, ringLoop, crossTest,
    onEdgeCheck, straddles, min_def, max_def, abs_le]

theorem pir_z_lowlat : point_in_ring 5 5e-19 zRing = none := by
  norm_num [point_in_ring, zRing, ringEdges, pathEdges, ringLoop, crossTest,
    onEdgeCheck, straddles, min_def, max_def, abs_le]

/-! ### Claim theorems -/

/-- C2: the claim states that for every ring of pairs of finite floats and
every query point the helper `_point_in_ring` never raises, because the
`1e-18` additive epsilon makes the denominator `y2 - y1 + 1e-18` of the
crossing test nonzero.  This is false: on the ring
`[[0, 1e-18], [2, 0], [1, 1]]` and the query point `(-10, 5e-19)` the
first edge straddles the query latitude and has `y2 - y1 = -1e-18`
exactly, so the denominator is exactly zero and the division raises
`ZeroDivisionError` (modelled as `none`). -/
theorem ring_division_by_zero : point_in_ring (-10) 5e-19 zRing = none := by
  norm_num [point_in_ring, zRing, ringEdges, pathEdges, ringLoop, crossTest,
    onEdgeCheck, straddles, min_def, max_def, abs_le]

/-- C8: for the square outer ring `[[0,0],[0,10],[10,10],[10,0]]`,
`_point_in_ring` returns `True` at `(5,5)` and `False` at `(15,15)`. -/
theorem square_containment :
    point_in_ring 5 5 sqRing = some true ∧
    point_in_ring 15 15 sqRing = some false :=
  ⟨pir_sq_55, pir_sq_1515⟩

/-- C6: `geojson_contains_point` returns `False` without raising when the
geometry is absent, lacks a `"type"` key, lacks `"coordinates"` (or has it
null/empty), or has an empty rings list; and `_point_in_ring` returns
`False` unconditionally on rings of fewer than 3 points. -/
theorem malformed_geometry_false (lon lat : ℚ) :
    geojson_contains_point none lon lat = some false ∧
    (∀ c : Option Coords, geojson_contains_point (some ⟨none, c⟩) lon lat = some false) ∧
    geojson_contains_point (some (polyGeom [])) lon lat = some false ∧
    geojson_contains_point (some ⟨some "Polygon", none⟩) lon lat = some false ∧
    geojson_contains_point (some ⟨some "Polygon", some (.mc [])⟩) lon lat = some false ∧
    geojson_contains_point (some (multiGeom [])) lon lat = some false ∧
    geojson_contains_point (some ⟨some "MultiPolygon", none⟩) lon lat = some false ∧
    geojson_contains_point (some ⟨some "MultiPolygon", some (.pc [])⟩) lon lat = some false ∧
    ∀ ring : LinearRing, ring.length < 3 → point_in_ring lon lat ring = some false := by
  refine ⟨rfl, fun c => rfl, rfl, rfl, rfl, rfl, rfl, rfl, fun ring h => ?_⟩
  simp only [point_in_ring]
  rw [if_pos h]

/-- C6 witness: a two-point ring evaluates to `False`, via the theorem. -/
theorem malformed_geometry_false_witness :
    point_in_ring 0 0 [(1, 2), (3, 4)] = some false :=
  (malformed_geometry_false 0 0).2.2.2.2.2.2.2.2 [(1, 2), (3, 4)] (by simp)

/-- C9: a geometry dict whose `"type"` is present but neither `"Polygon"`
nor `"MultiPolygon"` makes `geojson_contains_point` return `False` for
every query point, without raising, whatever its coordinates are. -/
theorem unknown_type_false (t : String) (h1 : t ≠ "Polygon")
    (h2 : t ≠ "MultiPolygon") (c : Option Coords) (lon lat : ℚ) :
    geojson_contains_point (some ⟨some t, c⟩) lon lat = some false := by
  simp only [geojson_contains_point]
  rw [if_neg h1, if_neg h2]

/-- C9 witness: a `"Point"` geometry, via the theorem. -/
theorem unknown_type_false_witness :
    geojson_contains_point (some ⟨some "Point", none⟩) 0 0 = some false :=
  unknown_type_false "Point" (by decide) (by decide) none 0 0

/-- C10: `_arcgis_polygon_to_geojson` returns `None` exactly on absent
input, input without a `"rings"` key, or an empty rings list; one ring
gives a `Polygon` with that single ring; two or more rings give a
`MultiPolygon` whose members are the singleton `[ring]` lists in order,
so the converted geometry never contains a hole ring. -/
theorem arcgis_conversion :
    (∀ g : Option ArcGeom, arcgis_polygon_to_geojson g = none ↔
        (g = none ∨ g = some ⟨none⟩ ∨ g = some ⟨some []⟩)) ∧
    (∀ r : LinearRing,
        arcgis_polygon_to_geojson (some ⟨some [r]⟩) = some (polyGeom [r])) ∧
    (∀ rs : List LinearRing, 2 ≤ rs.length →
        arcgis_polygon_to_geojson (some ⟨some rs⟩) =
          some (multiGeom (rs.map (fun r => [r])))) := by
  refine ⟨?_, fun r => rfl, ?_⟩
  · intro g
    match g with
    | none => simp [arcgis_polygon_to_geojson]
    | some ⟨none⟩ => simp [arcgis_polygon_to_geojson]
    | some ⟨some []⟩ => simp [arcgis_polygon_to_geojson]
    | some ⟨some [r]⟩ => simp [arcgis_polygon_to_geojson]
    | some ⟨some (r1 :: r2 :: rest)⟩ => simp [arcgis_polygon_to_geojson]
  · intro rs h
    match rs, h with
    | r1 :: r2 :: rest, _ => rfl

/-- C10 witness: a concrete two-ring conversion, via the theorem. -/
theorem arcgis_conversion_witness :
    arcgis_polygon_to_geojson (some ⟨some [sqRing, holeSq]⟩) =
      some (multiGeom [[sqRing], [holeSq]]) :=
  arcgis_conversion.2.2 [sqRing, holeSq] (by simp)

/-- C4: for a `Polygon` geometry with non-empty rings,
`geojson_contains_point` returns `True` exactly when `_point_in_ring` is
`True` on the outer ring and `False` on every hole; consequently
(the same edge-inclusive test being applied to holes) the point `(5,5)`
inside the hole and the point `(4,5)` exactly on the hole's boundary are
not contained, while `(1,1)` is. -/
theorem polygon_holes_iff :
    (∀ (outer : LinearRing) (holes : List LinearRing) (lon lat : ℚ),
      geojson_contains_point (some (polyGeom (outer :: holes))) lon lat = some true ↔
        (point_in_ring lon lat outer = some true ∧
         ∀ h ∈ holes, point_in_ring lon lat h = some false)) ∧
    geojson_contains_point (some (polyGeom [sqRing, holeSq])) 5 5 = some false ∧
    geojson_contains_point (some (polyGeom [sqRing, holeSq])) 1 1 = some true ∧
    geojson_contains_point (some (polyGeom [sqRing, holeSq])) 4 5 = some false := by
  refine ⟨fun outer holes lon lat => ?_, ?_, ?_, ?_⟩
  · rw [geojson_poly]
    exact polyBranch_eq_true_iff lon lat outer holes
  · rw [geojson_poly]
    simp [polyBranch, holesLoop, pir_sq_55, pir_holeSq_55]
  · rw [geojson_poly]
    simp [polyBranch, holesLoop, pir_sq_11, pir_holeSq_11]
  · rw [geojson_poly]
    simp [polyBranch, holesLoop, pir_sq_45, pir_holeSq_45]

/-- C4 witness: the square with no holes contains `(5,5)`, via the
equivalence. -/
theorem polygon_holes_iff_witness :
    geojson_contains_point (some (polyGeom [sqRing])) 5 5 = some true :=
  (polygon_holes_iff.1 sqRing [] 5 5).mpr ⟨pir_sq_55, by simp⟩

/-- C5 counterexample: as stated, the claim is false: on the MultiPolygon
`[[zRing], [sqRing]]` and the query point `(5, 5e-19)`, the member polygon
`[sqRing]` contains the point, but the MultiPolygon branch raises
`ZeroDivisionError` on the earlier member `[zRing]` (modelled `none`), so
it does not return `True`. -/
theorem multipolygon_refines_cex :
    geojson_contains_point (some (multiGeom [[zRing], [sqRing]])) 5 5e-19 = none ∧
    geojson_contains_point (some (polyGeom [sqRing])) 5 5e-19 = some true := by
  constructor
  · rw [geojson_multi]
    simp [multiLoop, pir_z_lowlat]
  · rw [geojson_poly]
    simp [polyBranch, holesLoop, pir_sq_lowlat]

/-- C5 (amended): provided no member evaluation raises, the MultiPolygon
branch returns `True` exactly when some member ring-array, wrapped as a
standalone `Polygon` geometry, is contained according to the `Polygon`
branch (empty members count as not containing). -/
theorem multipolygon_refines (ps : List (List LinearRing)) (lon lat : ℚ)
    (hOK : ∀ p ∈ ps, geojson_contains_point (some (polyGeom p)) lon lat ≠ none) :
    geojson_contains_point (some (multiGeom ps)) lon lat = some true ↔
      ∃ p ∈ ps, geojson_contains_point (some (polyGeom p)) lon lat = some true := by
  rw [geojson_multi]
  have hOK2 : ∀ p ∈ ps, polyBranch lon lat p ≠ none := fun p hp => by
    have h := hOK p hp
    rwa [geojson_poly] at h
  rw [multiLoop_eq_true_iff lon lat ps hOK2]
  constructor
  · rintro ⟨p, hp, hpt⟩
    exact ⟨p, hp, by rw [geojson_poly]; exact hpt⟩
  · rintro ⟨p, hp, hpt⟩
    exact ⟨p, hp, by rw [geojson_poly] at hpt; exact hpt⟩

/-- C5 witness: a single-member MultiPolygon containing `(5,5)`, via the
equivalence. -/
theorem multipolygon_refines_witness :
    geojson_contains_point (some (multiGeom [[sqRing]])) 5 5 = some true :=
  (multipolygon_refines [[sqRing]] 5 5 (by
    intro p hp
    simp only [List.mem_singleton] at hp
    subst hp
    rw [geojson_poly]
    simp [polyBranch, holesLoop, pir_sq_55])).mpr
    ⟨[sqRing], by simp, by rw [geojson_poly]; simp [polyBranch, holesLoop, pir_sq_55]⟩

/-- C1 counterexample: as stated, the claim is false: on the ring
`fRing = [[0, 1e-18], [2, 0], [40, -10], [40, 1]]` and the query point
`(30, 5e-19)` (all coordinates exactly representable IEEE doubles), no
edge triggers the on-edge override and exactly one edge (the vertical
edge `(40,-10)-(40,1)`, whose interpolated longitude is exactly `40`)
satisfies the crossing test, so the crossing count is odd, yet
`_point_in_ring` does not return `True`: the first edge straddles the
query latitude and its guarded denominator `0 - 1e-18 + 1e-18` is exactly
zero (also in double arithmetic), so the function raises
`ZeroDivisionError` instead. -/
theorem crossing_parity_cex :
    3 ≤ fRing.length ∧
    (ringEdges fRing).any (onEdgeCheck 30 5e-19) = false ∧
    crossCount 30 5e-19 fRing = 1 ∧
    point_in_ring 30 5e-19 fRing = none := by
  refine ⟨by simp [fRing], ?_, ?_, ?_⟩
  · norm_num [ringEdges, pathEdges, fRing, List.any_cons, List.any_nil,
      onEdgeCheck, min_def, max_def, abs_le]
  · norm_num [crossCount, ringEdges, pathEdges, fRing, List.countP_cons,
      List.countP_nil, crossesB, straddles, div_zero]
  · norm_num [point_in_ring, fRing, ringEdges, pathEdges, ringLoop, crossTest,
      onEdgeCheck, straddles, min_def, max_def, abs_le]

/-- C1 (amended): for a ring of at least 3 points on which no edge triggers
the on-edge override and no straddling edge has a zero guarded denominator
(the division-by-zero slip recorded with C2), `_point_in_ring` returns
`True` exactly when the number of edges (wrap-around edge included)
satisfying the crossing test is odd. -/
theorem crossing_parity (lon lat : ℚ) (ring : LinearRing) (h3 : 3 ≤ ring.length)
    (hEdge : ∀ e ∈ ringEdges ring, onEdgeCheck lon lat e = false)
    (hDen : ∀ e ∈ ringEdges ring, denomOK lat e) :
    point_in_ring lon lat ring = some true ↔ Odd (crossCount lon lat ring) := by
  simp only [point_in_ring]
  rw [if_neg (by omega), ringLoop_of_no_onEdge lon lat (ringEdges ring) false hEdge hDen]
  simp [crossCount]

/-- C1 witness: the square ring at `(5,5)`: hypotheses hold, the crossing
count is odd, and the theorem yields containment. -/
theorem crossing_parity_witness : point_in_ring 5 5 sqRing = some true :=
  (crossing_parity 5 5 sqRing (by simp [sqRing])
    (by norm_num [ringEdges, pathEdges, sqRing, List.forall_mem_cons,
      onEdgeCheck, min_def, max_def, abs_le])
    (by norm_num [ringEdges, pathEdges, sqRing, List.forall_mem_cons, straddles])).mpr
    (by norm_num [crossCount, ringEdges, pathEdges, sqRing, List.countP_cons,
      List.countP_nil, crossesB, straddles, Nat.odd_iff])

/-- C3 counterexample: as stated, the claim is false: on the ring
`zRing = [[0, 1e-18], [2, 0], [1, 1]]` and the query point
`(2 - 5e-19, 5e-19)`, which lies exactly on the edge `(2,0)-(1,1)`, the
on-edge override holds for that edge, yet `_point_in_ring` does not return
`True`: the crossing test of the earlier first edge raises
`ZeroDivisionError` before the on-edge check is reached. -/
theorem edge_inclusive_cex :
    3 ≤ zRing.length ∧
    (ringEdges zRing).any (onEdgeCheck (2 - 5e-19) 5e-19) = true ∧
    point_in_ring (2 - 5e-19) 5e-19 zRing = none := by
  refine ⟨by simp [zRing], ?_, ?_⟩
  · norm_num [ringEdges, pathEdges, zRing, List.any_cons, List.any_nil,
      onEdgeCheck, min_def, max_def, abs_le]
  · norm_num [point_in_ring, zRing, ringEdges, pathEdges, ringLoop, crossTest,
      onEdgeCheck, straddles, min_def, max_def, abs_le]

/-- C3 (amended): for a ring of at least 3 points on which no straddling
edge has a zero guarded denominator (the division-by-zero slip recorded
with C2), if some edge passes the on-edge tolerance check then
`_point_in_ring` returns `True` regardless of parity; in particular the
square contains `(0,5)` (on an edge) and `(10,10)` (a vertex). -/
theorem edge_inclusive :
    (∀ (lon lat : ℚ) (ring : LinearRing), 3 ≤ ring.length →
      (∀ e ∈ ringEdges ring, denomOK lat e) →
      (∃ e ∈ ringEdges ring, onEdgeCheck lon lat e = true) →
      point_in_ring lon lat ring = some true) ∧
    point_in_ring 0 5 sqRing = some true ∧
    point_in_ring 10 10 sqRing = some true := by
  refine ⟨fun lon lat ring h3 hDen hEx => ?_, pir_sq_05, pir_sq_1010⟩
  simp only [point_in_ring]
  rw [if_neg (by omega)]
  exact ringLoop_of_onEdge lon lat (ringEdges ring) false hDen hEx

/-- C3 witness: the square ring and the on-edge point `(0,5)`, via the
theorem. -/
theorem edge_inclusive_witness : point_in_ring 0 5 sqRing = some true :=
  edge_inclusive.1 0 5 sqRing (by simp [sqRing])
    (by norm_num [ringEdges, pathEdges, sqRing, List.forall_mem_cons, straddles])
    ⟨((0, 0), (0, 10)), by simp [ringEdges, pathEdges, sqRing],
      by norm_num [onEdgeCheck, min_def, max_def, abs_le]⟩

/-! ### Supporting lemmas: edges of a reversed ring -/

theorem pathEdges_concat (a y : Pt) : ∀ l : List Pt,
    pathEdges ((l ++ [a]) ++ [y]) = pathEdges (l ++ [a]) ++ [(a, y)]
  | [] => rfl
  | [_] => rfl
  | b :: c :: m2 => congrArg (List.cons (b, c)) (pathEdges_concat a y (c :: m2))

theorem pathEdges_reverse : ∀ xs : List Pt,
    pathEdges xs.reverse = ((pathEdges xs).map Prod.swap).reverse
  | [] => rfl
  | [_] => rfl
  | a :: b :: m => by
    have ih := pathEdges_reverse (b :: m)
    calc pathEdges ((a :: b :: m).reverse)
        = pathEdges ((m.reverse ++ [b]) ++ [a]) := by
          rw [List.reverse_cons, List.reverse_cons]
      _ = pathEdges (m.reverse ++ [b]) ++ [(b, a)] := pathEdges_concat b a m.reverse
      _ = pathEdges ((b :: m).reverse) ++ [(b, a)] := by rw [List.reverse_cons]
      _ = ((pathEdges (b :: m)).map Prod.swap).reverse ++ [(b, a)] := by rw [ih]
      _ = (((a, b) :: pathEdges (b :: m)).map Prod.swap).reverse := by
          rw [List.map_cons, List.reverse_cons]
          rfl
      _ = ((pathEdges (a :: b :: m)).map Prod.swap).reverse := rfl

/-- The edge list of a reversed ring is a permutation of the edge list of
the ring with every edge's endpoints swapped. -/
theorem ringEdges_reverse_perm (ring : LinearRing) :
    (ringEdges ring.reverse).Perm ((ringEdges ring).map Prod.swap) := by
  cases ring with
  | nil => exact List.Perm.refl _
  | cons p ps =>
    cases hL : (p :: ps).reverse with
    | nil => exact absurd hL (by simp)
    | cons x xs =>
      have hrev : (p :: ps).reverse = ps.reverse ++ [p] := List.reverse_cons p ps
      have hA : ringEdges (x :: xs)
          = pathEdges (ps.reverse ++ [p]) ++ [(p, x)] := by
        show pathEdges ((x :: xs) ++ [x]) = _
        rw [← hL, hrev]
        exact pathEdges_concat p x ps.reverse
      have hB : ((ringEdges (p :: ps)).map Prod.swap).reverse
          = (p, x) :: pathEdges (ps.reverse ++ [p]) := by
        show ((pathEdges ((p :: ps) ++ [p])).map Prod.swap).reverse = _
        rw [← pathEdges_reverse, List.reverse_append, List.reverse_singleton,
          List.singleton_append, hL]
        simp only [pathEdges]
        rw [← hL, hrev]
      rw [hA]
      refine (List.perm_append_singleton _ _).trans ?_
      rw [← hB]
      exact List.reverse_perm _

theorem onEdgeCheck_swap (lon lat : ℚ) (e : Pt × Pt) :
    onEdgeCheck lon lat e.swap = onEdgeCheck lon lat e := by
  obtain ⟨⟨x1, y1⟩, ⟨x2, y2⟩⟩ := e
  have habs : |(y1 - y2) * (lon - x2) - (x1 - x2) * (lat - y2)|
      = |(y2 - y1) * (lon - x1) - (x2 - x1) * (lat - y1)| := by
    rw [show (y1 - y2) * (lon - x2) - (x1 - x2) * (lat - y2)
         = -((y2 - y1) * (lon - x1) - (x2 - x1) * (lat - y1)) from by ring, abs_neg]
  simp only [onEdgeCheck, Prod.swap_prod_mk, min_comm x2 x1, max_comm x2 x1,
    min_comm y2 y1, max_comm y2 y1, habs]

/-- C7 counterexample: as stated, winding-order independence is false,
because the division-by-zero slip of the crossing test (C2) is
orientation-asymmetric: on the ring `zRing = [[0,1e-18],[2,0],[1,1]]` and
the query point `(-7, 5e-19)` (all values exactly representable IEEE
doubles), the first edge descends by exactly `1e-18`, so its guarded
denominator `0 - 1e-18 + 1e-18` is exactly zero and `_point_in_ring`
raises `ZeroDivisionError`; in the reversed ring the same edge is
traversed upward, its denominator is `1e-18 + 1e-18 = 2e-18 ≠ 0`, and the
function returns `False` (two crossings, even parity).  So the reversed
ring does not return the same result as the original. -/
theorem reverse_winding_cex :
    point_in_ring (-7) 5e-19 zRing.reverse = some false ∧
    point_in_ring (-7) 5e-19 zRing = none := by
  constructor
  · rw [show zRing.reverse = [(1, 1), (2, 0), (0, 1e-18)] from rfl]
    norm_num [point_in_ring, ringEdges, pathEdges, ringLoop, crossTest,
      onEdgeCheck, straddles, min_def, max_def, abs_le]
  · norm_num [point_in_ring, zRing, ringEdges, pathEdges, ringLoop, crossTest,
      onEdgeCheck, straddles, min_def, max_def, abs_le]

/-- C7 (amended): reversing the vertex order of a ring preserves the
result of `_point_in_ring` provided no straddling edge has a zero guarded
denominator in either orientation (the orientation-asymmetric
division-by-zero slip of the counterexample), and the crossing test
decides each edge the same way in both orientations (in this exact
arithmetic the `1e-18` epsilon perturbs the interpolated crossing
longitude differently in the two orientations, so the two decisions are
not definitionally equal; the hypothesis holds whenever the query
longitude is not in the tiny window between the two perturbed values). -/
theorem reverse_winding (ring : LinearRing) (lon lat : ℚ)
    (hDen : ∀ e ∈ ringEdges ring, denomOK lat e ∧ denomOK lat e.swap)
    (hSym : ∀ e ∈ ringEdges ring, crossesB lon lat e = crossesB lon lat e.swap) :
    point_in_ring lon lat ring.reverse = point_in_ring lon lat ring := by
  have hperm := ringEdges_reverse_perm ring
  by_cases h3 : ring.length < 3
  · simp only [point_in_ring, List.length_reverse]
    rw [if_pos h3, if_pos h3]
  · simp only [point_in_ring, List.length_reverse]
    rw [if_neg h3, if_neg h3]
    have hDenR : ∀ e ∈ ringEdges ring.reverse, denomOK lat e := by
      intro e he
      rcases List.mem_map.mp (hperm.mem_iff.mp he) with ⟨f, hf, rfl⟩
      exact (hDen f hf).2
    have hDenP : ∀ e ∈ ringEdges ring, denomOK lat e := fun e he => (hDen e he).1
    by_cases hoe : ∃ e ∈ ringEdges ring, onEdgeCheck lon lat e = true
    · rcases hoe with ⟨e, he, het⟩
      have heR : e.swap ∈ ringEdges ring.reverse :=
        hperm.mem_iff.mpr (List.mem_map.mpr ⟨e, he, rfl⟩)
      have hetR : onEdgeCheck lon lat e.swap = true := by
        rw [onEdgeCheck_swap]; exact het
      rw [ringLoop_of_onEdge lon lat _ false hDenR ⟨e.swap, heR, hetR⟩,
        ringLoop_of_onEdge lon lat _ false hDenP ⟨e, he, het⟩]
    · have hE : ∀ e ∈ ringEdges ring, onEdgeCheck lon lat e = false := by
        intro e he
        rcases Bool.eq_false_or_eq_true (onEdgeCheck lon lat e) with h | h
        · exact absurd ⟨e, he, h⟩ hoe
        · exact h
      have hER : ∀ e ∈ ringEdges ring.reverse, onEdgeCheck lon lat e = false := by
        intro e he
        rcases List.mem_map.mp (hperm.mem_iff.mp he) with ⟨f, hf, rfl⟩
        rw [onEdgeCheck_swap]
        exact hE f hf
      rw [ringLoop_of_no_onEdge lon lat _ false hER hDenR,
        ringLoop_of_no_onEdge lon lat _ false hE hDenP]
      have hcount : (ringEdges ring.reverse).countP (crossesB lon lat)
          = (ringEdges ring).countP (crossesB lon lat) := by
        rw [hperm.countP_eq, List.countP_map]
        exact List.countP_congr (fun e he => by
          rw [Function.comp_apply, ← hSym e he])
      rw [hcount]

/-- C7 witness: the square ring and the point `(5,5)`: both hypotheses
hold there, and the theorem gives equality of the two orientations. -/
theorem reverse_winding_witness :
    point_in_ring 5 5 sqRing.reverse = point_in_ring 5 5 sqRing :=
  reverse_winding sqRing 5 5
    (by norm_num [ringEdges, pathEdges, sqRing, List.forall_mem_cons, straddles,
      Prod.swap_prod_mk])
    (by norm_num [ringEdges, pathEdges, sqRing, List.forall_mem_cons, crossesB,
      straddles, Prod.swap_prod_mk])

end App
